import Mathlib

/-!
Verification development for the `lenny-wisdom-mcp` repository.

The transcript ingestion pipeline (`scripts/ingest_transcripts.py`) and the
tool-call dispatch of the MCP server (`mcp_server/server.py`) are shallowly
embedded here.  Strings are modelled as `List Char`; Python exceptions are
modelled with `Option`/`Except` (a `none`/`.error` value stands for a raised
exception).  The ASCII fragment of Python's `\s`, `str.strip`, `str.split`,
`str.lower` and `int` is modelled; the source corpus and all string constants
in the code are ASCII, so the non-ASCII extensions of those Python primitives
never fire on the inputs the claims are about.
-/

/-- ASCII whitespace, the fragment of Python's `\s` / `str.split()` /
`str.strip()` whitespace classes exercised by the code. -/
def isWS (c : Char) : Bool :=
  c == ' ' || c == '\t' || c == '\n' || c == '\r' || c == '\x0b' || c == '\x0c'

/-- The characters stripped by `ts.strip("()")` in `parse_timestamp`. -/
def isParen (c : Char) : Bool := c == '(' || c == ')'

/-- Sentence-final punctuation of the lookbehind in
`re.split(r'(?<=[.!?])\s+', content)`. -/
def sentencePunct (c : Char) : Bool := c == '.' || c == '!' || c == '?'

/-- Python `str.strip(chars)`: drop characters satisfying `p` from both ends. -/
def pyStripChars (p : Char → Bool) (l : List Char) : List Char :=
  ((l.dropWhile p).reverse.dropWhile p).reverse

/-- Python `str.strip()` (whitespace strip). -/
def pyStrip (l : List Char) : List Char := pyStripChars isWS l

/-- Worker for Python `str.split()` (no separator): `w` is the word being
accumulated, reversed. Runs of whitespace separate words, empties dropped. -/
def pySplitGo (w : List Char) : List Char → List (List Char)
  | [] => if w = [] then [] else [w.reverse]
  | c :: rest =>
    if isWS c then
      if w = [] then pySplitGo [] rest else w.reverse :: pySplitGo [] rest
    else pySplitGo (c :: w) rest

/-- Python `str.split()`: whitespace-separated words. -/
def pySplit (l : List Char) : List (List Char) := pySplitGo [] l

/-- Embeds `count_words` (ingest_transcripts.py:74-76): `len(text.split())`. -/
def count_words (l : List Char) : Nat := (pySplit l).length

/-- Worker for Python `str.split(c)` with a single-character separator:
splits at every occurrence, keeping empty pieces. -/
def splitCharGo (sc : Char) (acc : List Char) : List Char → List (List Char)
  | [] => [acc.reverse]
  | c :: rest =>
    if c == sc then acc.reverse :: splitCharGo sc [] rest
    else splitCharGo sc (c :: acc) rest

/-- Python `str.split(c)` for a one-character separator (e.g. `":"`). -/
def pySplitChar (sc : Char) (l : List Char) : List (List Char) := splitCharGo sc [] l

/-- Index of the leftmost occurrence of `sep` in the list, if any
(Python `str.find` for a non-empty needle). -/
def findSubAux (sep : List Char) : List Char → Option Nat
  | [] => none
  | c :: rest =>
    if sep.isPrefixOf (c :: rest) then some 0
    else (findSubAux sep rest).map (· + 1)

/-- Python `str.split(sep, maxsplit)` for a non-empty separator; first
argument after `sep` is the remaining number of splits. Used for
`content.split("---", 2)` (ingest_transcripts.py:88). -/
def pySplitMax (sep : List Char) : Nat → List Char → List (List Char)
  | 0, l => [l]
  | k + 1, l =>
    match findSubAux sep l with
    | none => [l]
    | some i => l.take i :: pySplitMax sep k (l.drop (i + sep.length))

/-- Fuelled worker for Python `str.split(sep)` without maxsplit (non-empty
separator); the fuel is an upper bound on the input length, consumed one
character per step. -/
def pySplitOnGo (sep : List Char) : Nat → List Char → List Char → List (List Char)
  | 0, acc, l => [acc.reverse ++ l]
  | _ + 1, acc, [] => [acc.reverse]
  | fuel + 1, acc, c :: rest =>
    if sep ≠ [] ∧ sep.isPrefixOf (c :: rest) then
      acc.reverse :: pySplitOnGo sep fuel [] (rest.drop (sep.length - 1))
    else pySplitOnGo sep fuel (c :: acc) rest

/-- Python `str.split(sep)` for a non-empty separator (keeps empty pieces). -/
def pySplitOn (sep l : List Char) : List (List Char) := pySplitOnGo sep l.length [] l

/-- Fuelled count of non-overlapping, leftmost occurrences of `sep`. -/
def countOccGo (sep : List Char) : Nat → List Char → Nat
  | 0, _ => 0
  | fuel + 1, l =>
    match findSubAux sep l with
    | none => 0
    | some i => countOccGo sep fuel (l.drop (i + sep.length)) + 1

/-- Number of non-overlapping leftmost occurrences of `sep` in `l`
(spec-side notion used to state the delimiter-count claim). -/
def countOcc (sep l : List Char) : Nat := countOccGo sep l.length l

/-- Value of an ASCII digit. -/
def digitVal (c : Char) : Nat := c.toNat - '0'.toNat

/-- Digit tail of a Python integer literal: digits optionally separated by
single underscores, accumulating into `acc`. -/
def digitsCore (acc : Nat) : List Char → Option Nat
  | [] => some acc
  | '_' :: c :: rest =>
    if c.isDigit then digitsCore (acc * 10 + digitVal c) rest else none
  | c :: rest =>
    if c.isDigit then digitsCore (acc * 10 + digitVal c) rest else none

/-- Python `int(s)` on the ASCII fragment: surrounding whitespace, an optional
sign, then decimal digits with optional single underscores between them.
`none` models a raised `ValueError`. -/
def pyIntOfChars (l : List Char) : Option Int :=
  match pyStripChars isWS l with
  | '+' :: c :: rest =>
    if c.isDigit then (digitsCore (digitVal c) rest).map Int.ofNat else none
  | '-' :: c :: rest =>
    if c.isDigit then (digitsCore (digitVal c) rest).map (fun n => -(n : Int)) else none
  | c :: rest =>
    if c.isDigit then (digitsCore (digitVal c) rest).map Int.ofNat else none
  | [] => none

/-- Python slice `t[a:b]` for natural bounds (clamping, empty when `b ≤ a`). -/
def pySlice (t : List Char) (a b : Nat) : List Char := (t.drop a).take (b - a)

/-- Python `" ".join(pieces)` (used to flush a sentence buffer into a chunk). -/
def joinSp : List (List Char) → List Char
  | [] => []
  | [a] => a
  | a :: b :: t => a ++ ' ' :: joinSp (b :: t)

/-- Python `sep.join(pieces)` for an arbitrary separator. -/
def joinWith (sep : List Char) : List (List Char) → List Char
  | [] => []
  | [a] => a
  | a :: b :: t => a ++ sep ++ joinWith sep (b :: t)

/-- Python `enumerate` starting at `base`. -/
def pyEnum (base : Nat) : List α → List (Nat × α)
  | [] => []
  | a :: l => (base, a) :: pyEnum (base + 1) l

/-- Python `range(0, n, b)` for a positive step `b`
(`range` with step 0 raises in Python and is never used by the code). -/
def pyRange0 (n b : Nat) : List Nat := List.range' 0 ((n + b - 1) / b) b

/-- Python `x or y` for an optional string `x` (`None` and `""` are falsy);
models `match.group(1) or current_speaker`. -/
def pyOr (a : Option (List Char)) (b : List Char) : List Char :=
  match a with
  | some s => if s = [] then b else s
  | none => b

/-! ### Ingest pipeline (scripts/ingest_transcripts.py) -/

/-- The constant `CHUNK_TARGET_WORDS = 400` (ingest_transcripts.py:33). -/
def CHUNK_TARGET_WORDS : Nat := 400

/-- The constant `CHUNK_MAX_WORDS = 600` (ingest_transcripts.py:34). -/
def CHUNK_MAX_WORDS : Nat := 600

/-- Embeds `parse_timestamp` (ingest_transcripts.py:64-71):
`parts = ts.strip("()").split(":")`; 3 parts give `H*3600+MM*60+SS`, 2 parts
give `MM*60+SS`, any other number of parts gives `0`.  `none` models the
`ValueError` raised by `int()` on a non-integer part. -/
def parse_timestamp (l : List Char) : Option Int :=
  match pySplitChar ':' (pyStripChars isParen l) with
  | [a, b, c] =>
    match pyIntOfChars a, pyIntOfChars b, pyIntOfChars c with
    | some x, some y, some z => some (x * 3600 + y * 60 + z)
    | _, _, _ => none
  | [a, b] =>
    match pyIntOfChars a, pyIntOfChars b with
    | some x, some y => some (x * 60 + y)
    | _, _ => none
  | _ => some 0

/-- Embeds `TranscriptChunk` (ingest_transcripts.py:38-45).  `timestamp_seconds` is
`Option` because it is produced by `parse_timestamp`, whose failure is a
raised exception. -/
structure TranscriptChunk where
  speaker : List Char
  timestamp_start : List Char
  timestamp_seconds : Option Int
  content : List Char
  word_count : Nat
deriving DecidableEq, Repr

/-- Worker for `re.split(r'(?<=[.!?])\s+', content)`
(ingest_transcripts.py:133).  The flag is true while the whitespace run of a
match is being consumed; `acc` is the current segment, reversed.  A split
happens at a whitespace character whose predecessor (head of `acc`) is
sentence-final punctuation. -/
def sentGo : Bool → List Char → List Char → List (List Char)
  | _, acc, [] => [acc.reverse]
  | true, acc, c :: rest =>
    if isWS c then sentGo true acc rest else sentGo false (c :: acc) rest
  | false, acc, c :: rest =>
    if (match acc with | p :: _ => sentencePunct p | [] => false) && isWS c then
      acc.reverse :: sentGo true [] rest
    else sentGo false (c :: acc) rest

/-- Embeds `re.split(r'(?<=[.!?])\s+', content)`: split content into sentences at
punctuation followed by whitespace. -/
def splitSentences (l : List Char) : List (List Char) := sentGo false [] l

/-- Chunk constructor used in the oversized-turn branch
(ingest_transcripts.py:141-147 and 156-162): the chunk's `word_count` is
recomputed from the joined buffer. -/
def mkChunk (speaker ts content : List Char) : TranscriptChunk :=
  ⟨speaker, ts, parse_timestamp ts, content, count_words content⟩

/-- The greedy sentence-packing loop (ingest_transcripts.py:134-162):
whenever adding the next sentence would push the buffer above
`CHUNK_TARGET_WORDS` and the buffer is non-empty, flush it; at the end flush
any remaining buffer. -/
def packGo (speaker ts : List Char) (cur : List (List Char)) (curWords : Nat) :
    List (List Char) → List TranscriptChunk
  | [] => if cur = [] then [] else [mkChunk speaker ts (joinSp cur)]
  | s :: rest =>
    if curWords + count_words s > CHUNK_TARGET_WORDS ∧ cur ≠ [] then
      mkChunk speaker ts (joinSp cur) :: packGo speaker ts [s] (count_words s) rest
    else packGo speaker ts (cur ++ [s]) (curWords + count_words s) rest

/-- The per-turn chunk packer (ingest_transcripts.py:128-170): empty content
is discarded; content of at most `CHUNK_MAX_WORDS` words is emitted as a
single chunk unchanged; larger content is split at sentence boundaries and
packed greedily. -/
def packTurn (speaker ts content : List Char) : List TranscriptChunk :=
  if content = [] then []
  else
    let wc := count_words content
    if wc > CHUNK_MAX_WORDS then
      packGo speaker ts [] 0 (splitSentences content)
    else [⟨speaker, ts, parse_timestamp ts, content, wc⟩]

/-!
Backtracking matcher for the fixed turn-marker pattern
(ingest_transcripts.py:108-111):

  `(?:^|\n)(?:([A-Za-z][A-Za-z\s\.]+?)\s*)?\((\d{1,2}:\d{2}:\d{2})\):\s*`

with `re.MULTILINE`, together with the non-overlapping leftmost scan of
`finditer`.  The pattern is fixed, so the engine is specialised to it:
greedy `\s*` before `\(` and at the end is deterministic (whitespace can
never satisfy the following literal), the lazy `+?` of the name group tries
extensions in increasing length, the optional name group is tried before
the no-name alternative, and `\d{1,2}` tries two digits before one (the two
shapes are mutually exclusive because a digit is never `:`).
-/

/-- Character class `[A-Za-z\s\.]` of the name group's tail. -/
def isNameChar (c : Char) : Bool := c.isAlpha || isWS c || c == '.'

/-- Length of the maximal leading whitespace run (greedy `\s*`). -/
def wsCount : List Char → Nat
  | [] => 0
  | c :: rest => if isWS c then wsCount rest + 1 else 0

/-- Matching of a `\d{2}:\d{2}` tail preceded by a two-digit hour: matches
`\d{2}:\d{2}:\d{2}`, returning the matched characters and length 8. -/
def matchTS2 (l : List Char) : Option (List Char × Nat) :=
  match l with
  | a :: b :: ':' :: c :: d :: ':' :: e :: f :: _ =>
    if a.isDigit && b.isDigit && c.isDigit && d.isDigit && e.isDigit && f.isDigit then
      some ([a, b, ':', c, d, ':', e, f], 8)
    else none
  | _ => none

/-- One-digit-hour shape `\d:\d{2}:\d{2}`, length 7. -/
def matchTS1 (l : List Char) : Option (List Char × Nat) :=
  match l with
  | a :: ':' :: c :: d :: ':' :: e :: f :: _ =>
    if a.isDigit && c.isDigit && d.isDigit && e.isDigit && f.isDigit then
      some ([a, ':', c, d, ':', e, f], 7)
    else none
  | _ => none

/-- Matching of `\d{1,2}:\d{2}:\d{2}`: greedy `{1,2}` tries two digits first. -/
def matchTS (l : List Char) : Option (List Char × Nat) :=
  match matchTS2 l with
  | some r => some r
  | none => matchTS1 l

/-- Matching of `\(\d{1,2}:\d{2}:\d{2}\):` — the parenthesised timestamp and trailing
colon; returns group 2 and the consumed length. -/
def matchParenTS : List Char → Option (List Char × Nat)
  | '(' :: rest =>
    match matchTS rest with
    | some (ts, n) =>
      match rest.drop n with
      | ')' :: ':' :: _ => some (ts, n + 3)
      | _ => none
    | none => none
  | _ => none

/-- Lazy `[A-Za-z\s\.]+?` followed by greedy `\s*` and the timestamp:
consume one more class character, test the remainder, extend on failure.
Returns (name tail, group 2, characters consumed through the `:` after
the timestamp's closing parenthesis). -/
def nameAttempt : List Char → Option (List Char × List Char × Nat)
  | [] => none
  | c :: rest =>
    if isNameChar c then
      match matchParenTS (rest.drop (wsCount rest)) with
      | some (ts, m) => some ([c], ts, 1 + wsCount rest + m)
      | none =>
        match nameAttempt rest with
        | some (tail, ts, n) => some (c :: tail, ts, 1 + n)
        | none => none
    else none

/-- The pattern without the name group: `\(\d{1,2}:\d{2}:\d{2}\):\s*`. -/
def noNameMatch (l : List Char) : Option (Option (List Char) × List Char × Nat) :=
  match matchParenTS l with
  | some (ts, m) => some (none, ts, m + wsCount (l.drop m))
  | none => none

/-- The pattern after the `(?:^|\n)` anchor: optional greedy name group,
then the timestamp and trailing `\s*`. Returns (group 1, group 2, consumed
length). -/
def matchCore (l : List Char) : Option (Option (List Char) × List Char × Nat) :=
  match l with
  | c :: rest =>
    if c.isAlpha then
      match nameAttempt rest with
      | some (tail, ts, n) =>
        some (some (c :: tail), ts, (1 + n) + wsCount ((c :: rest).drop (1 + n)))
      | none => noNameMatch (c :: rest)
    else noNameMatch (c :: rest)
  | [] => noNameMatch []

/-- One `re` match of the turn pattern: optional group 1 (speaker name),
group 2 (timestamp), `match.start()` and `match.end()`. -/
structure RMatch where
  g1 : Option (List Char)
  g2 : List Char
  startPos : Nat
  endPos : Nat
deriving DecidableEq, Repr

/-- Attempt the full pattern at position `p` of `t`: the `(?:^|\n)`
alternation first matches `^` (start of a line, zero-width, under
`re.MULTILINE`), then falls back to consuming a literal newline. -/
def matchAt (t : List Char) (p : Nat) : Option RMatch :=
  match (if p == 0 || t.get? (p - 1) == some '\n' then matchCore (t.drop p) else none) with
  | some (g1, ts, n) => some ⟨g1, ts, p, p + n⟩
  | none =>
    match (if t.get? p == some '\n' then matchCore (t.drop (p + 1)) else none) with
    | some (g1, ts, n) => some ⟨g1, ts, p, p + 1 + n⟩
    | none => none

/-- The `finditer` scan: leftmost matches, resuming after each match's end.
The fuel is an upper bound on the number of scan steps (each step advances
the position by at least one). -/
def findGo (t : List Char) : Nat → Nat → List RMatch
  | 0, _ => []
  | fuel + 1, p =>
    if p ≥ t.length then []
    else
      match matchAt t p with
      | some m => m :: findGo t fuel m.endPos
      | none => findGo t fuel (p + 1)

/-- Embeds `turn_pattern.finditer(transcript_raw)` (ingest_transcripts.py:115). -/
def findAll (t : List Char) : List RMatch := findGo t (t.length + 1) 0

/-- A segmented turn: speaker, timestamp string, stripped content. -/
structure PreTurn where
  speaker : List Char
  tsStr : List Char
  content : List Char
deriving DecidableEq, Repr

/-- The segmentation loop over the matches (ingest_transcripts.py:117-126):
`speaker = (match.group(1) or current_speaker).strip()`, and content is the
stripped text from the match's end to the next match's start (or the end of
the text). -/
def turnsGo (t : List Char) (cur : List Char) : List RMatch → List PreTurn
  | [] => []
  | m :: rest =>
    let speaker := pyStrip (pyOr m.g1 cur)
    let nextStart :=
      match rest with
      | m2 :: _ => m2.startPos
      | [] => t.length
    ⟨speaker, m.g2, pyStrip (pySlice t m.endPos nextStart)⟩ :: turnsGo t speaker rest

/-- The turn segmenter: scan for markers, then run the attribution loop with
initial speaker `"Unknown"` (ingest_transcripts.py:113-126). -/
def segmentTurns (t : List Char) : List PreTurn :=
  turnsGo t ("Unknown".toList) (findAll t)

/-- Chunks of a whole transcript: each non-empty turn is packed
(ingest_transcripts.py:113-170). -/
def parseChunks (t : List Char) : List TranscriptChunk :=
  (segmentTurns t).flatMap fun tu => packTurn tu.speaker tu.tsStr tu.content

/-- Spec-side notion for the attribution claim: the most recently seen
explicit speaker name (stripped) in a list of markers, with default
`"Unknown"`. -/
def lastExplicitName (ms : List RMatch) : List Char :=
  ((ms.filterMap RMatch.g1).map pyStrip).getLastD ("Unknown".toList)

/-- The guest-field separators (ingest_transcripts.py:192), in program order. -/
def guestSeparators : List (List Char) :=
  [" and ".toList, " & ".toList, ", ".toList, " with ".toList]

/-- Embeds `parse_guest_names` (ingest_transcripts.py:189-201): repeatedly split on
each separator, then keep the stripped names that are non-empty. -/
def parse_guest_names (g : List Char) : List (List Char) :=
  let names := guestSeparators.foldl (fun ns sep => ns.flatMap fun n => pySplitOn sep n) [g]
  names.filterMap fun n => if pyStrip n = [] then none else some (pyStrip n)

/-- The two document-level parse failures of `parse_transcript_file`
(ingest_transcripts.py:88-98): fewer than two `---` delimiters, or a YAML
error on the metadata block. -/
inductive ParseErr where
  | noFrontmatter
  | yamlError
deriving DecidableEq, Repr

/-- The frontmatter delimiter `"---"` of `content.split("---", 2)`. -/
def frontmatterDelim : List Char := ("---").toList

/-- The document-splitting front of `parse_transcript_file`
(ingest_transcripts.py:88-100): `parts = content.split("---", 2)`; fewer
than three parts fail; otherwise the metadata block `parts[1]` is handed to
the YAML parser (an external library, passed in as `yamlParse`, whose raised
`YAMLError` is its `none`), and the body is `parts[2].strip()`. -/
def parseFront {α : Type} (yamlParse : List Char → Option α) (doc : List Char) :
    Except ParseErr (α × List Char) :=
  match pySplitMax frontmatterDelim 2 doc with
  | [_, meta, body] =>
    match yamlParse meta with
    | none => .error .yamlError
    | some m => .ok (m, pyStrip body)
  | _ => .error .noFrontmatter

/-- Python exceptions that escape `parse_transcript_file` uncaught:
`AttributeError` from `.get` on a non-dict value (lines 176-183),
`ValueError` from `int()` on a non-numeric string, and `TypeError` from
`int()` on `None`, a list or a dict (lines 181 and 183). -/
inductive PyErr where
  | attributeError
  | valueError
  | typeError
deriving DecidableEq, Repr

/-- Values `yaml.safe_load` can return for a metadata block: `None` (empty
block), an integer, a string, a list, or a mapping.  Floats and booleans of
YAML are not modelled; no claim depends on them. -/
inductive YamlVal where
  | null
  | int (n : Int)
  | str (s : List Char)
  | list (items : List YamlVal)
  | dict (entries : List (List Char × YamlVal))

/-- Python `v.get(key, default)`: defined on dicts only; on `None`, lists,
strings or integers it raises `AttributeError`. -/
def pyGet (v : YamlVal) (key : List Char) (default : YamlVal) :
    Except PyErr YamlVal :=
  match v with
  | .dict entries => .ok ((entries.lookup key).getD default)
  | _ => .error .attributeError

/-- Python `int(v)` on a YAML value: integers pass through, strings are
parsed (`ValueError` on failure), anything else raises `TypeError`. -/
def pyIntConv : YamlVal → Except PyErr Int
  | .int n => .ok n
  | .str s =>
    match pyIntOfChars s with
    | some n => .ok n
    | none => .error .valueError
  | .null => .error .typeError
  | .list _ => .error .typeError
  | .dict _ => .error .typeError

/-- The metadata fields read by the `EpisodeData` construction
(ingest_transcripts.py:176-183).  The string-keyed fields store whatever
`.get` returned (the code performs no type check on them); the two numeric
fields go through `int()`. -/
structure EpisodeMeta where
  title : YamlVal
  guest : YamlVal
  youtube_url : YamlVal
  video_id : YamlVal
  description : YamlVal
  duration_seconds : Int
  duration_display : YamlVal
  view_count : Int

/-- The unguarded metadata extraction of ingest_transcripts.py:174-186, in
the code's evaluation order: eight `frontmatter.get` calls and two `int()`
conversions, none of them inside a `try`.  A `.error` models an exception
propagating out of `parse_transcript_file`. -/
def extractMeta (fm : YamlVal) : Except PyErr EpisodeMeta := do
  let title ← pyGet fm (("title").toList) (.str [])
  let guest ← pyGet fm (("guest").toList) (.str [])
  let yurl ← pyGet fm (("youtube_url").toList) (.str [])
  let vid ← pyGet fm (("video_id").toList) (.str [])
  let desc ← pyGet fm (("description").toList) (.str [])
  let durv ← pyGet fm (("duration_seconds").toList) (.int 0)
  let dur ← pyIntConv durv
  let durd ← pyGet fm (("duration").toList) (.str [])
  let vcv ← pyGet fm (("view_count").toList) (.int 0)
  let vc ← pyIntConv vcv
  return ⟨title, guest, yurl, vid, desc, dur, durd, vc⟩

/-- The document-level behaviour of `parse_transcript_file`
(ingest_transcripts.py:79-186), including the unguarded tail:
`.ok none` is a handled failure (the function returns `None` after a missing
delimiter block, lines 88-91, or a caught `YAMLError`, lines 94-98);
`.ok (some _)` is a parsed document; `.error e` is an exception raised
uncaught by the metadata extraction at lines 174-186. -/
def parse_transcript_file_front (yamlParse : List Char → Option YamlVal)
    (doc : List Char) : Except PyErr (Option (EpisodeMeta × List Char)) :=
  match pySplitMax frontmatterDelim 2 doc with
  | [_, meta, body] =>
    match yamlParse meta with
    | none => .ok none
    | some fm =>
      match extractMeta fm with
      | .error e => .error e
      | .ok m => .ok (some (m, pyStrip body))
  | _ => .ok none

/-- Outcome of one document in the ingestion loop. -/
inductive DocResult where
  | skipped
  | ingested (meta : EpisodeMeta) (body : List Char)

/-- The loop of `ingest_all` (ingest_transcripts.py:363-376).
`parse_transcript_file` is called at line 370, outside the `try`
surrounding `ingest_episode`, so an exception it raises propagates out of
`ingest_all` and the remaining documents are never processed: the whole
call ends in `.error e`.  A `None` return is skipped with a diagnostic and
the loop continues. -/
def ingestAllAbort (yamlParse : List Char → Option YamlVal) :
    List (List Char) → Except PyErr (List DocResult)
  | [] => .ok []
  | d :: rest =>
    match parse_transcript_file_front yamlParse d with
    | .error e => .error e
    | .ok none => (ingestAllAbort yamlParse rest).map fun os => .skipped :: os
    | .ok (some (m, body)) =>
      (ingestAllAbort yamlParse rest).map fun os => .ingested m body :: os

/-- Embeds `get_embeddings_batch` (ingest_transcripts.py:235-241): one embedding per
text, in order; the embedding provider is the function `embed`. -/
def get_embeddings_batch {β : Type} (embed : List Char → β) (texts : List (List Char)) :
    List β := texts.map embed

/-- Embeds `upsert_chunks` (ingest_transcripts.py:301-332): the rows sent to the
store.  `for i in range(0, len(chunks), batch_size)` slices a batch,
embeddings are generated for the batch's contents, and
`for j, (chunk, embedding) in enumerate(zip(batch, embeddings))` assigns
`chunk_index = i + j`.  The row is modelled as (chunk_index, chunk,
embedding). -/
def upsert_chunks {β : Type} (embed : List Char → β) (batch_size : Nat)
    (chunks : List TranscriptChunk) : List (Nat × TranscriptChunk × β) :=
  if chunks = [] then []
  else
    (pyRange0 chunks.length batch_size).flatMap fun i =>
      let batch := (chunks.drop i).take batch_size
      let texts := batch.map fun c => c.content
      let embeddings := get_embeddings_batch embed texts
      (pyEnum 0 (batch.zip embeddings)).map fun p => (i + p.1, p.2.1, p.2.2)

/-! ### Tool-call surface (mcp_server/server.py) -/

/-- Python `str.lower()` on the ASCII fragment. -/
def pyLower (l : List Char) : List Char := l.map Char.toLower

/-- Python `needle in haystack` substring test. -/
def containsSub (needle hay : List Char) : Bool :=
  needle = [] || (findSubAux needle hay).isSome

/-- A row returned by the `search_chunks` RPC (server.py:50-64). -/
structure SearchRow where
  guest_name : List Char
  episode_title : List Char
  timestamp_start : List Char
  content : List Char
deriving DecidableEq, Repr

/-- A row of `result.data` for the `list_episodes` query (server.py:360-362).
The query selects `title, slug, youtube_url, duration_display, view_count,
description` — not `id` — so `e.get("id")` yields `none`; the field is kept
optional to model the dictionary lookup faithfully. -/
structure EpisodeRow where
  title : List Char
  slug : List Char
  youtube_url : List Char
  duration_display : List Char
  view_count : Nat
  description : List Char
  id : Option (List Char)
deriving DecidableEq, Repr

/-- The external collaborators of `call_tool`: the vector search RPC, the
LLM (`synthesize_with_llm`), the local formatting of `search_wisdom` results
(kept abstract because it prints a float with `:.2f`), and the relational
store's query results. `episodesQuery` is `result.data` of the episode query
built from the optional title/description search, the sort key and the
limit (filtering, sorting and limiting happen in the external store). -/
structure ToolEnv where
  search : List Char → Nat → List SearchRow
  synth : List Char → List Char → List Char
  fmtSearchRows : List SearchRow → List Char
  episodesQuery : Option (List Char) → List Char → Nat → List EpisodeRow
  guestIdsByName : List Char → List (List Char)
  episodeIdsByGuestIds : List (List Char) → List (List Char)

/-- The `arguments` dictionary of a tool call: every key the six tools read
with `arguments.get(...)`, absent keys being `none`. -/
structure ToolArgs where
  query : Option (List Char) := none
  limit : Option Nat := none
  challenge : Option (List Char) := none
  context : Option (List Char) := none
  topic : Option (List Char) := none
  experts : Option (List (List Char)) := none
  goal : Option (List Char) := none
  constraints : Option (List Char) := none
  category : Option (List Char) := none
  guest : Option (List Char) := none
  search : Option (List Char) := none
  sort : Option (List Char) := none

/-- One block of expert context:
`f"**{guest_name}** ({episode_title}):\n{content}"` (server.py:255). -/
def ctxBlock (r : SearchRow) : List Char :=
  "**".toList ++ r.guest_name ++ "** (".toList ++ r.episode_title ++ "):\n".toList ++ r.content

/-- Python `"\n\n".join(...)` of the context blocks. -/
def buildContext (rs : List SearchRow) : List Char :=
  joinWith ("\n\n".toList) (rs.map ctxBlock)

/-- Thousands grouping of reversed digit characters (`{view_count:,}`). -/
def commaGroup : List Char → List Char
  | d1 :: d2 :: d3 :: d4 :: rest => d1 :: d2 :: d3 :: ',' :: commaGroup (d4 :: rest)
  | l => l

/-- Python `f"{n:,}"` for a natural number. -/
def commaFmt (n : Nat) : List Char := (commaGroup (Nat.toDigits 10 n).reverse).reverse

/-- One formatted episode of `list_episodes` (server.py:391-395). -/
def fmtEpisode (e : EpisodeRow) : List Char :=
  "**".toList ++ e.title ++ "**\nDuration: ".toList ++ e.duration_display ++
    " | Views: ".toList ++ commaFmt e.view_count ++ "\nURL: ".toList ++ e.youtube_url

/-- The playbook prompt of `generate_playbook` (server.py:311-319). -/
def playbookPrompt (goal constraints : List Char) : List Char :=
  "Generate a step-by-step playbook for: ".toList ++ goal ++ "\n        \nConstraints: ".toList ++
    (if constraints = [] then "None specified".toList else constraints) ++
    "\n\nStructure the playbook with:\n1. Key principles from experts\n2. Step-by-step actions\n3. Common pitfalls to avoid\n4. Success metrics to track".toList

/-- The metrics prompt of `find_metrics` (server.py:343-347). -/
def metricsPrompt (category context : List Char) : List Char :=
  "Extract and summarize the key metrics, KPIs, and benchmarks mentioned for:\nCategory: ".toList ++
    category ++ "\nContext: ".toList ++
    (if context = [] then "General".toList else context) ++
    "\n\nInclude specific numbers and targets where mentioned.".toList

/-- Embeds `call_tool` (server.py:218-399), returning the text of the single
`TextContent` each branch produces. -/
def call_tool (env : ToolEnv) (name : String) (args : ToolArgs) : List Char :=
  if name = "search_wisdom" then
    let results := env.search (args.query.getD []) (args.limit.getD 5)
    if results = [] then "No relevant results found.".toList
    else env.fmtSearchRows results
  else if name = "get_advice" then
    let challenge := args.challenge.getD []
    let context := args.context.getD []
    let results := env.search (pyStrip (challenge ++ [' '] ++ context)) 8
    if results = [] then "No relevant expert insights found for this challenge.".toList
    else env.synth challenge (buildContext results)
  else if name = "compare_experts" then
    let topic := args.topic.getD []
    let experts := args.experts.getD []
    let results0 := env.search topic 15
    let results :=
      if experts ≠ [] then
        results0.filter fun r => experts.any fun ex => containsSub (pyLower ex) (pyLower r.guest_name)
      else results0
    if results = [] then "No relevant expert viewpoints found.".toList
    else env.synth ("Compare the different expert viewpoints on: ".toList ++ topic)
      (buildContext results)
  else if name = "generate_playbook" then
    let goal := args.goal.getD []
    let results := env.search ("how to ".toList ++ goal ++ " best practices steps".toList) 10
    if results = [] then "No relevant expert insights found for this goal.".toList
    else env.synth (playbookPrompt goal (args.constraints.getD [])) (buildContext results)
  else if name = "find_metrics" then
    let category := args.category.getD []
    let context := args.context.getD []
    let results := env.search (category ++ " metrics KPIs benchmarks ".toList ++ context) 8
    if results = [] then "No relevant metrics or benchmarks found.".toList
    else env.synth (metricsPrompt category context) (buildContext results)
  else if name = "list_episodes" then
    let data := env.episodesQuery args.search (args.sort.getD ("views".toList)) (args.limit.getD 10)
    if data = [] then "No episodes found.".toList
    else
      let data2 :=
        match args.guest with
        | none => data
        | some g =>
          let gids := env.guestIdsByName g
          if gids = [] then data
          else
            let eids := env.episodeIdsByGuestIds gids
            data.filter fun e =>
              match e.id with
              | some i => eids.contains i
              | none => false
      joinWith ("\n\n".toList) (data2.map fmtEpisode)
  else "Unknown tool: ".toList ++ name.toList

/-! ### Concrete inputs used by witnesses -/

/-- An oversized turn content: 601 two-word sentences (1202 words). -/
def bigTurnContent : List Char := joinSp (List.replicate 601 (("Go on.").toList))

/-- Twelve chunks (more than one embedding batch at the code's batch size
of 10), used to witness the chunk-index claim. -/
def witnessChunks : List TranscriptChunk :=
  (List.range 12).map fun k => mkChunk [] [] (List.replicate k 'a')

/-- Spec-side notion: a string is trimmed when neither end is whitespace. -/
def trimmedB (l : List Char) : Bool :=
  (match l.head? with | some c => !isWS c | none => true) &&
  (match l.getLast? with | some c => !isWS c | none => true)

/-- An episode row as returned by the `list_episodes` select (no `id`). -/
def c7Row : EpisodeRow :=
  ⟨("Some Episode").toList, ("some-episode").toList, ("https://yt").toList,
    ("1:00:00").toList, 1234, ("desc").toList, none⟩

/-- External collaborators for the C7 counterexample: the episode query
returns one row, but the guest lookup matches no guest records. -/
def c7Env : ToolEnv :=
  { search := fun _ _ => []
    synth := fun _ _ => []
    fmtSearchRows := fun _ => []
    episodesQuery := fun _ _ _ => [c7Row]
    guestIdsByName := fun _ => []
    episodeIdsByGuestIds := fun _ => [] }

/-- Tool arguments with a guest filter that matches nothing. -/
def c7Args : ToolArgs := { guest := some (("Nobody").toList) }

/-- External collaborators that find nothing at all. -/
def c7EmptyEnv : ToolEnv :=
  { search := fun _ _ => []
    synth := fun _ _ => []
    fmtSearchRows := fun _ => []
    episodesQuery := fun _ _ _ => []
    guestIdsByName := fun _ => []
    episodeIdsByGuestIds := fun _ => [] }

/-- A two-marker transcript whose second marker carries no speaker name. -/
def c8Text : List Char := ("Alice (00:00:01): Hi.\n(00:00:05): Bye.").toList

/-- The second regex match of `c8Text` (no name, inherits "Alice"). -/
def c8Match : RMatch := ⟨none, ("00:00:05").toList, 21, 34⟩

/-- The second segmented turn of `c8Text`. -/
def c8Turn : PreTurn := ⟨("Alice").toList, ("00:00:05").toList, ("Bye.").toList⟩

/-- A document whose metadata block is empty: `yaml.safe_load("\n")`
returns `None`, and `frontmatter.get` then raises `AttributeError`. -/
def c4BadDoc : List Char := ("---\n---\nbody").toList

/-- A well-formed document whose metadata block parses to a mapping. -/
def c4GoodDoc : List Char := ("---\ntitle: T\n---\nbody").toList

/-- A concrete stand-in for `yaml.safe_load`, agreeing with PyYAML on the
two metadata blocks of `c4BadDoc` and `c4GoodDoc`: the empty block parses
to `None`, the other to a one-entry mapping. -/
def c4Oracle : List Char → Option YamlVal := fun meta =>
  if meta = ("\n").toList then some .null
  else some (.dict [((("title").toList), .str (("T").toList))])

/-! ### Helper lemmas: words and whitespace -/

theorem pySplitGo_ws_append {c : Char} (hc : isWS c = true) :
    ∀ (x w y : List Char),
      pySplitGo w (x ++ c :: y) = pySplitGo w x ++ pySplitGo [] y := by
  intro x
  induction x with
  | nil =>
    intro w y
    by_cases hw : w = [] <;> simp [pySplitGo, hc, hw]
  | cons d x ih =>
    intro w y
    by_cases hd : isWS d <;> by_cases hw : w = [] <;>
      simp [pySplitGo, hd, hw, ih]

theorem pySplit_ws_cons {c : Char} (hc : isWS c = true) (y : List Char) :
    pySplit (c :: y) = pySplit y := by
  simp [pySplit, pySplitGo, hc]

theorem pySplit_joinSp : ∀ ls : List (List Char),
    pySplit (joinSp ls) = (ls.map pySplit).flatten := by
  intro ls
  induction ls with
  | nil => simp [joinSp, pySplit, pySplitGo]
  | cons a t ih =>
    cases t with
    | nil => simp [joinSp]
    | cons b t' =>
      have h := pySplitGo_ws_append (c := ' ') (by decide) a [] (joinSp (b :: t'))
      simp only [joinSp]
      simp only [pySplit] at ih ⊢
      rw [h, ih]
      simp [pySplit]

theorem count_words_joinSp (ls : List (List Char)) :
    count_words (joinSp ls) = (ls.map count_words).sum := by
  simp only [count_words, pySplit_joinSp, List.length_flatten, List.map_map]
  rfl

theorem sentGo_words :
    ∀ (l : List Char) (skipping : Bool) (acc : List Char),
      (skipping = true → acc = []) →
      ((sentGo skipping acc l).map pySplit).flatten = pySplit (acc.reverse ++ l) := by
  intro l
  induction l with
  | nil =>
    intro skipping acc _
    cases skipping <;> simp [sentGo]
  | cons c rest ih =>
    intro skipping acc h
    cases skipping with
    | true =>
      have ha := h rfl
      subst ha
      by_cases hc : isWS c
      · simpa [sentGo, hc, pySplit_ws_cons hc] using ih true [] (fun _ => rfl)
      · simpa [sentGo, hc] using ih false [c] (by simp)
    | false =>
      rcases acc with _ | ⟨p, acc'⟩
      · simpa [sentGo] using ih false [c] (by simp)
      · by_cases hp : (sentencePunct p && isWS c) = true
        · have hws : isWS c = true := ((Bool.and_eq_true _ _).mp hp).2
          have hrec := ih true [] (fun _ => rfl)
          simp only [List.reverse_nil, List.nil_append] at hrec
          have hsplit := pySplitGo_ws_append hws ((p :: acc').reverse) [] rest
          simp only [sentGo, hp, if_true, List.map_cons, List.flatten_cons]
          rw [hrec]
          simp only [pySplit] at hsplit ⊢
          rw [hsplit]
        · have hrec := ih false (c :: p :: acc') (by simp)
          simp only [List.reverse_cons, List.append_assoc, List.singleton_append] at hrec
          simp only [sentGo, hp, if_false]
          simpa using hrec

theorem splitSentences_words (l : List Char) :
    ((splitSentences l).map pySplit).flatten = pySplit l := by
  simpa [splitSentences] using sentGo_words l false [] (by simp)

/-! ### Helper lemmas: the greedy packer -/

theorem packGo_words (sp ts : List Char) :
    ∀ (ss cur : List (List Char)) (w : Nat),
      ((packGo sp ts cur w ss).map fun c => pySplit c.content).flatten =
        (cur.map pySplit).flatten ++ (ss.map pySplit).flatten := by
  intro ss
  induction ss with
  | nil =>
    intro cur w
    simp only [packGo]
    by_cases hcur : cur = []
    · rw [if_pos hcur]
      simp [hcur]
    · rw [if_neg hcur]
      simp [mkChunk, pySplit_joinSp]
  | cons s rest ih =>
    intro cur w
    simp only [packGo]
    by_cases hcond : (w + count_words s > CHUNK_TARGET_WORDS ∧ cur ≠ [])
    · rw [if_pos hcond]
      simp [mkChunk, pySplit_joinSp, ih]
    · rw [if_neg hcond]
      simp [ih]

theorem packGo_wc (sp ts : List Char) :
    ∀ (ss cur : List (List Char)) (w : Nat) (c : TranscriptChunk),
      c ∈ packGo sp ts cur w ss → c.word_count = count_words c.content := by
  intro ss
  induction ss with
  | nil =>
    intro cur w c hc
    simp only [packGo] at hc
    by_cases hcur : cur = []
    · rw [if_pos hcur] at hc
      simp at hc
    · rw [if_neg hcur] at hc
      simp only [List.mem_singleton] at hc
      subst hc
      rfl
  | cons s rest ih =>
    intro cur w c hc
    simp only [packGo] at hc
    by_cases hcond : (w + count_words s > CHUNK_TARGET_WORDS ∧ cur ≠ [])
    · rw [if_pos hcond] at hc
      rcases List.mem_cons.mp hc with hc | hc
      · subst hc
        rfl
      · exact ih _ _ _ hc
    · rw [if_neg hcond] at hc
      exact ih _ _ _ hc

/-- A flushed buffer satisfies the size claim: a multi-sentence buffer is
below the target (hence the maximum), and a single-sentence buffer is one of
the original sentences. -/
theorem flushed_ok (sp ts : List Char) (S cur : List (List Char))
    (hcur : ∀ x ∈ cur, x ∈ S)
    (hbound : 2 ≤ cur.length → (cur.map count_words).sum ≤ CHUNK_TARGET_WORDS) :
    (mkChunk sp ts (joinSp cur)).word_count ≤ CHUNK_MAX_WORDS ∨
      (mkChunk sp ts (joinSp cur)).content ∈ S := by
  rcases cur with _ | ⟨t, cur'⟩
  · left
    simp [mkChunk, joinSp, count_words, pySplit, pySplitGo, CHUNK_MAX_WORDS]
  · rcases cur' with _ | ⟨t', cur''⟩
    · right
      simpa [mkChunk, joinSp] using hcur t (by simp)
    · left
      have h2 := hbound (by simp)
      show (mkChunk sp ts (joinSp (t :: t' :: cur''))).word_count ≤ CHUNK_MAX_WORDS
      simp only [mkChunk, count_words_joinSp]
      exact le_trans h2 (by norm_num [CHUNK_TARGET_WORDS, CHUNK_MAX_WORDS])

theorem packGo_bound (sp ts : List Char) (S : List (List Char)) :
    ∀ (ss cur : List (List Char)),
      (∀ x ∈ ss, x ∈ S) → (∀ x ∈ cur, x ∈ S) →
      (2 ≤ cur.length → (cur.map count_words).sum ≤ CHUNK_TARGET_WORDS) →
      ∀ c ∈ packGo sp ts cur ((cur.map count_words).sum) ss,
        c.word_count ≤ CHUNK_MAX_WORDS ∨ c.content ∈ S := by
  intro ss
  induction ss with
  | nil =>
    intro cur _ hcur hbound c hc
    simp only [packGo] at hc
    by_cases hcur0 : cur = []
    · rw [if_pos hcur0] at hc
      simp at hc
    · rw [if_neg hcur0] at hc
      simp only [List.mem_singleton] at hc
      subst hc
      exact flushed_ok sp ts S cur hcur hbound
  | cons s rest ih =>
    intro cur hss hcur hbound c hc
    simp only [packGo] at hc
    by_cases hcond :
        ((cur.map count_words).sum + count_words s > CHUNK_TARGET_WORDS ∧ cur ≠ [])
    · rw [if_pos hcond] at hc
      rcases List.mem_cons.mp hc with hc | hc
      · subst hc
        exact flushed_ok sp ts S cur hcur hbound
      · have hs : s ∈ S := hss s (List.mem_cons_self s rest)
        have hsum1 : count_words s = (([s] : List (List Char)).map count_words).sum := by simp
        rw [hsum1] at hc
        refine ih [s] (fun x hx => hss x (List.mem_cons_of_mem s hx))
          (fun x hx => ?_) (fun h2 => by simp at h2) c hc
        rw [List.mem_singleton] at hx
        rw [hx]
        exact hs
    · rw [if_neg hcond] at hc
      have hsum : (cur.map count_words).sum + count_words s =
          (((cur ++ [s]).map count_words).sum) := by simp
      rw [hsum] at hc
      refine ih (cur ++ [s]) (fun x hx => hss x (List.mem_cons_of_mem s hx))
        (fun x hx => ?_) (fun hlen => ?_) c hc
      · rcases List.mem_append.mp hx with hx | hx
        · exact hcur x hx
        · rw [List.mem_singleton] at hx
          rw [hx]
          exact hss s (List.mem_cons_self s rest)
      · have hcurne : cur ≠ [] := by
          intro h0
          rw [h0] at hlen
          simp at hlen
        have hnot : ¬ ((cur.map count_words).sum + count_words s > CHUNK_TARGET_WORDS) :=
          fun hgt => hcond ⟨hgt, hcurne⟩
        simp only [List.map_append, List.sum_append, List.map_cons, List.map_nil,
          List.sum_cons, List.sum_nil]
        omega

/-! ### Claim theorems: the chunk packer -/

/-- C1: for every turn whose word count exceeds `CHUNK_MAX_WORDS` and that
splits into more than one sentence, the packer's chunks concatenate — modulo
whitespace normalization, i.e. up to the whitespace-split word sequence —
exactly to the original content, and no chunk's word count exceeds the
maximum except a chunk consisting of a single original sentence. -/
theorem packer_split_lossless_and_bounded (sp ts content : List Char)
    (hbig : CHUNK_MAX_WORDS < count_words content)
    (hmulti : 1 < (splitSentences content).length) :
    (((packTurn sp ts content).map fun c => pySplit c.content).flatten = pySplit content) ∧
    (∀ c ∈ packTurn sp ts content,
      c.word_count ≤ CHUNK_MAX_WORDS ∨ c.content ∈ splitSentences content) := by
  have hne : content ≠ [] := by
    intro h0
    rw [h0] at hbig
    simp [count_words, pySplit, pySplitGo, CHUNK_MAX_WORDS] at hbig
  have hpt : packTurn sp ts content = packGo sp ts [] 0 (splitSentences content) := by
    simp only [packTurn]
    rw [if_neg hne, if_pos hbig]
  constructor
  · rw [hpt]
    have h := packGo_words sp ts (splitSentences content) [] 0
    simpa [splitSentences_words] using h
  · rw [hpt]
    intro c hc
    refine packGo_bound sp ts (splitSentences content) (splitSentences content) []
      (fun x hx => hx) (fun x hx => by simp at hx) (fun h2 => by simp at h2) c ?_
    simpa using hc

set_option maxRecDepth 400000 in
/-- Witness for the C1 theorem at a concrete 1202-word turn. -/
theorem packer_split_lossless_and_bounded_witness :
    (CHUNK_MAX_WORDS < count_words bigTurnContent ∧
      1 < (splitSentences bigTurnContent).length) ∧
    ((((packTurn [] [] bigTurnContent).map fun c => pySplit c.content).flatten =
        pySplit bigTurnContent) ∧
      (∀ c ∈ packTurn [] [] bigTurnContent,
        c.word_count ≤ CHUNK_MAX_WORDS ∨ c.content ∈ splitSentences bigTurnContent)) :=
  ⟨⟨by decide, by decide⟩,
    packer_split_lossless_and_bounded [] [] bigTurnContent (by decide) (by decide)⟩

/-- C2: a non-empty turn of at most `CHUNK_MAX_WORDS` words is emitted as a
single chunk with its content unchanged and its own word count; in
particular the turn `"Alice (00:01:15): Hello. This is a test."` yields one
chunk with speaker `"Alice"`, 75 seconds, the turn text and word count 5. -/
theorem packer_small_turn_single_chunk :
    (∀ (sp ts content : List Char), content ≠ [] →
      count_words content ≤ CHUNK_MAX_WORDS →
      packTurn sp ts content =
        [⟨sp, ts, parse_timestamp ts, content, count_words content⟩]) ∧
    parseChunks (("Alice (00:01:15): Hello. This is a test.").toList) =
      [⟨("Alice").toList, ("00:01:15").toList, some 75,
        ("Hello. This is a test.").toList, 5⟩] := by
  constructor
  · intro sp ts content hne hle
    simp only [packTurn]
    rw [if_neg hne, if_neg (by omega : ¬ (count_words content > CHUNK_MAX_WORDS))]
  · rfl

/-- Witness for the universally quantified part of the C2 theorem. -/
theorem packer_small_turn_single_chunk_witness :
    (("Hi there.").toList ≠ [] ∧ count_words (("Hi there.").toList) ≤ CHUNK_MAX_WORDS) ∧
    packTurn (("Bob").toList) (("1:02:03").toList) (("Hi there.").toList) =
      [⟨("Bob").toList, ("1:02:03").toList, parse_timestamp (("1:02:03").toList),
        ("Hi there.").toList, count_words (("Hi there.").toList)⟩] :=
  ⟨⟨by decide, by decide⟩,
    packer_small_turn_single_chunk.1 (("Bob").toList) (("1:02:03").toList)
      (("Hi there.").toList) (by decide) (by decide)⟩

/-! ### Claim theorems: timestamp conversion -/

/-- C3 counterexample: the claim says any input that is not of `H:MM:SS` or
`MM:SS` shape yields 0 silently, but `"a:b"` splits into two parts whose
`int()` conversion raises `ValueError` (modelled as `none`), so conversion
neither returns 0 nor stays silent. -/
theorem timestamp_nonnumeric_raises :
    parse_timestamp (("a:b").toList) = none ∧
    parse_timestamp (("a:b").toList) ≠ some 0 := by
  constructor
  · rfl
  · decide

/-- C3 amended: when the parenthesis-stripped input splits on `:` into three
integer-literal parts the result is `H*3600+MM*60+SS`, with two such parts it
is `MM*60+SS`, and with any other number of parts it is 0 without error;
two- or three-part inputs with a non-integer part raise (are not covered by
the silent-zero fallback).  The three spec examples hold. -/
theorem timestamp_conversion_amended :
    (∀ (l a b c : List Char) (x y z : Int),
      pySplitChar ':' (pyStripChars isParen l) = [a, b, c] →
      pyIntOfChars a = some x → pyIntOfChars b = some y → pyIntOfChars c = some z →
      parse_timestamp l = some (x * 3600 + y * 60 + z)) ∧
    (∀ (l a b : List Char) (x y : Int),
      pySplitChar ':' (pyStripChars isParen l) = [a, b] →
      pyIntOfChars a = some x → pyIntOfChars b = some y →
      parse_timestamp l = some (x * 60 + y)) ∧
    (∀ l : List Char,
      (pySplitChar ':' (pyStripChars isParen l)).length ≠ 2 →
      (pySplitChar ':' (pyStripChars isParen l)).length ≠ 3 →
      parse_timestamp l = some 0) ∧
    parse_timestamp (("01:02:03").toList) = some 3723 ∧
    parse_timestamp (("02:30").toList) = some 150 ∧
    parse_timestamp (("garbage").toList) = some 0 := by
  refine ⟨?_, ?_, ?_, by decide, by decide, by decide⟩
  · intro l a b c x y z hsplit ha hb hc
    simp [parse_timestamp, hsplit, ha, hb, hc]
  · intro l a b x y hsplit ha hb
    simp [parse_timestamp, hsplit, ha, hb]
  · intro l h2 h3
    rcases hq : pySplitChar ':' (pyStripChars isParen l) with _ | ⟨a, t⟩
    · simp [parse_timestamp, hq]
    rcases t with _ | ⟨b, t⟩
    · simp [parse_timestamp, hq]
    rcases t with _ | ⟨c, t⟩
    · rw [hq] at h2
      simp at h2
    rcases t with _ | ⟨d, t⟩
    · rw [hq] at h3
      simp at h3
    · simp [parse_timestamp, hq]

/-- Witness for the three-part case of the amended C3 theorem. -/
theorem timestamp_conversion_amended_witness :
    (pySplitChar ':' (pyStripChars isParen (("(7:08:09)").toList)) =
        [("7").toList, ("08").toList, ("09").toList] ∧
      pyIntOfChars (("7").toList) = some 7 ∧
      pyIntOfChars (("08").toList) = some 8 ∧
      pyIntOfChars (("09").toList) = some 9) ∧
    parse_timestamp (("(7:08:09)").toList) = some (7 * 3600 + 8 * 60 + 9) :=
  ⟨⟨by decide, by decide, by decide, by decide⟩,
    timestamp_conversion_amended.1 (("(7:08:09)").toList) (("7").toList)
      (("08").toList) (("09").toList) 7 8 9 (by decide) (by decide) (by decide) (by decide)⟩

/-! ### Claim theorems: document-level failures -/

theorem findSubAux_bound (sep : List Char) :
    ∀ (l : List Char) (i : Nat), findSubAux sep l = some i → i + sep.length ≤ l.length := by
  intro l
  induction l with
  | nil =>
    intro i h
    simp [findSubAux] at h
  | cons c rest ih =>
    intro i h
    simp only [findSubAux] at h
    by_cases hp : sep.isPrefixOf (c :: rest)
    · rw [if_pos hp] at h
      simp only [Option.some.injEq] at h
      have hle : sep.length ≤ (c :: rest).length :=
        (List.isPrefixOf_iff_prefix.mp hp).length_le
      omega
    · rw [if_neg hp] at h
      rcases hmap : findSubAux sep rest with _ | j
      · rw [hmap] at h
        simp at h
      · rw [hmap] at h
        simp only [Option.map_some', Option.some.injEq] at h
        have hb := ih j hmap
        simp only [List.length_cons]
        omega

theorem countOccGo_stable (sep : List Char) (hsep : sep ≠ []) :
    ∀ (f₁ f₂ : Nat) (l : List Char), l.length ≤ f₁ → l.length ≤ f₂ →
      countOccGo sep f₁ l = countOccGo sep f₂ l := by
  have hpos : 1 ≤ sep.length := by
    rcases sep with _ | ⟨x, s⟩
    · exact absurd rfl hsep
    · simp
  intro f₁
  induction f₁ with
  | zero =>
    intro f₂ l h1 _
    have h0 : l = [] := List.eq_nil_of_length_eq_zero (Nat.le_zero.mp h1)
    subst h0
    cases f₂ <;> simp [countOccGo, findSubAux]
  | succ f ih =>
    intro f₂ l h1 h2
    cases f₂ with
    | zero =>
      have h0 : l = [] := List.eq_nil_of_length_eq_zero (Nat.le_zero.mp h2)
      subst h0
      simp [countOccGo, findSubAux]
    | succ f' =>
      simp only [countOccGo]
      rcases hf : findSubAux sep l with _ | i
      · rfl
      · have hb := findSubAux_bound sep l i hf
        have hlen : (l.drop (i + sep.length)).length ≤ f := by
          simp only [List.length_drop]
          omega
        have hlen' : (l.drop (i + sep.length)).length ≤ f' := by
          simp only [List.length_drop]
          omega
        show countOccGo sep f (l.drop (i + sep.length)) + 1 =
          countOccGo sep f' (l.drop (i + sep.length)) + 1
        rw [ih f' _ hlen hlen']

theorem countOcc_cons_eq (sep : List Char) (hsep : sep ≠ []) (l : List Char)
    (i : Nat) (hf : findSubAux sep l = some i) :
    countOcc sep l = countOcc sep (l.drop (i + sep.length)) + 1 := by
  have hpos : 1 ≤ sep.length := by
    rcases sep with _ | ⟨x, s⟩
    · exact absurd rfl hsep
    · simp
  have hb := findSubAux_bound sep l i hf
  unfold countOcc
  rcases hl : l.length with _ | n
  · have h0 : l = [] := List.eq_nil_of_length_eq_zero hl
    subst h0
    simp [findSubAux] at hf
  · have hstep : countOccGo sep (n + 1) l =
        countOccGo sep n (l.drop (i + sep.length)) + 1 := by
      simp only [countOccGo, hf]
    rw [hstep]
    have hlen : (l.drop (i + sep.length)).length ≤ n := by
      simp only [List.length_drop]
      omega
    rw [countOccGo_stable sep hsep n _ _ hlen (le_refl _)]

/-- C5: a document containing fewer than two (non-overlapping, leftmost)
occurrences of the `---` delimiter makes the parser fail cleanly with
"no frontmatter" (the Python function returns `None`), not crash and not
return a partial result. -/
theorem missing_delimiter_returns_error {α : Type} (yamlParse : List Char → Option α)
    (doc : List Char) (h : countOcc frontmatterDelim doc < 2) :
    parseFront yamlParse doc = .error .noFrontmatter := by
  have hsep : frontmatterDelim ≠ [] := by decide
  unfold parseFront
  rcases h1 : findSubAux frontmatterDelim doc with _ | i
  · simp [pySplitMax, h1]
  · have e1 := countOcc_cons_eq frontmatterDelim hsep doc i h1
    rcases h2 : findSubAux frontmatterDelim
        (doc.drop (i + frontmatterDelim.length)) with _ | j
    · simp [pySplitMax, h1, h2]
    · exfalso
      have e2 := countOcc_cons_eq frontmatterDelim hsep _ j h2
      omega

/-- Witness for the C5 theorem: one delimiter occurrence only. -/
theorem missing_delimiter_returns_error_witness :
    countOcc frontmatterDelim (("hello --- world").toList) < 2 ∧
    parseFront (fun _ => some ()) (("hello --- world").toList) = .error .noFrontmatter :=
  ⟨by decide,
    missing_delimiter_returns_error (fun _ => some ()) (("hello --- world").toList) (by decide)⟩

/-- C4 counterexample: the claim says no malformed document aborts the
batch or raises an uncaught error, but a document whose metadata block
parses to `None` (e.g. `"---\n---\nbody"`) raises `AttributeError` at the
unguarded `frontmatter.get` (ingest_transcripts.py:176), outside the `try`
of `ingest_all` (line 370): the exception propagates and the well-formed
second document of the batch is never processed, though alone it would
ingest fine. -/
theorem malformed_document_aborts_batch :
    parse_transcript_file_front c4Oracle c4BadDoc = .error .attributeError ∧
    ingestAllAbort c4Oracle [c4BadDoc, c4GoodDoc] = .error .attributeError ∧
    ingestAllAbort c4Oracle [c4GoodDoc] =
      .ok [.ingested
        ⟨.str (("T").toList), .str [], .str [], .str [], .str [], 0, .str [], 0⟩
        (("body").toList)] :=
  ⟨rfl, rfl, rfl⟩

/-- C4 amended: the two guarded document-level failures — missing `---`
delimiter block and a caught YAML error — make `parse_transcript_file`
return `None`, and a `None` is skipped while ingestion continues with the
remaining documents; but a document whose metadata block parses to a
non-mapping value, or whose `duration_seconds`/`view_count` fail `int()`,
raises an uncaught exception at the metadata extraction and aborts the
whole batch. -/
theorem malformed_document_amended :
    (∀ (yamlParse : List Char → Option YamlVal) (doc : List Char),
      countOcc frontmatterDelim doc < 2 →
      parse_transcript_file_front yamlParse doc = .ok none) ∧
    (∀ (yamlParse : List Char → Option YamlVal) (doc x meta body : List Char),
      pySplitMax frontmatterDelim 2 doc = [x, meta, body] →
      yamlParse meta = none →
      parse_transcript_file_front yamlParse doc = .ok none) ∧
    (∀ (yamlParse : List Char → Option YamlVal) (d : List Char)
      (rest : List (List Char)),
      parse_transcript_file_front yamlParse d = .ok none →
      ingestAllAbort yamlParse (d :: rest) =
        (ingestAllAbort yamlParse rest).map fun os => DocResult.skipped :: os) ∧
    (∀ (yamlParse : List Char → Option YamlVal) (d : List Char)
      (rest : List (List Char)) (e : PyErr),
      parse_transcript_file_front yamlParse d = .error e →
      ingestAllAbort yamlParse (d :: rest) = .error e) := by
  refine ⟨?_, ?_, ?_, ?_⟩
  · intro yamlParse doc h
    have hsep : frontmatterDelim ≠ [] := by decide
    unfold parse_transcript_file_front
    rcases h1 : findSubAux frontmatterDelim doc with _ | i
    · simp [pySplitMax, h1]
    · have e1 := countOcc_cons_eq frontmatterDelim hsep doc i h1
      rcases h2 : findSubAux frontmatterDelim
          (doc.drop (i + frontmatterDelim.length)) with _ | j
      · simp [pySplitMax, h1, h2]
      · exfalso
        have e2 := countOcc_cons_eq frontmatterDelim hsep _ j h2
        omega
  · intro yamlParse doc x meta body hsplit hyaml
    unfold parse_transcript_file_front
    rw [hsplit]
    simp [hyaml]
  · intro yamlParse d rest h
    simp only [ingestAllAbort, h]
  · intro yamlParse d rest e h
    simp only [ingestAllAbort, h]

/-- Witness for the amended C4 theorem: a one-delimiter document is a
handled `None` and is skipped while the rest of the batch is processed. -/
theorem malformed_document_amended_witness :
    (countOcc frontmatterDelim (("no front matter --- here").toList) < 2 ∧
      parse_transcript_file_front c4Oracle (("no front matter --- here").toList) =
        .ok none) ∧
    ingestAllAbort c4Oracle ((("no front matter --- here").toList) :: [c4GoodDoc]) =
      (ingestAllAbort c4Oracle [c4GoodDoc]).map fun os => DocResult.skipped :: os :=
  ⟨⟨by decide,
      malformed_document_amended.1 c4Oracle (("no front matter --- here").toList)
        (by decide)⟩,
    malformed_document_amended.2.2.1 c4Oracle (("no front matter --- here").toList)
      [c4GoodDoc]
      (malformed_document_amended.1 c4Oracle (("no front matter --- here").toList)
        (by decide))⟩

/-! ### Claim theorems: chunk index assignment -/

theorem pyEnum_shift (i : Nat) :
    ∀ (l : List α) (k : Nat),
      (pyEnum k l).map (fun p => (i + p.1, p.2)) = pyEnum (i + k) l := by
  intro l
  induction l with
  | nil => intro k; simp [pyEnum]
  | cons a t ih =>
    intro k
    simp only [pyEnum, List.map_cons, ih]
    rw [Nat.add_assoc]

theorem pyEnum_append (xs : List α) :
    ∀ (ys : List α) (i : Nat),
      pyEnum i (xs ++ ys) = pyEnum i xs ++ pyEnum (i + xs.length) ys := by
  induction xs with
  | nil => intro ys i; simp [pyEnum]
  | cons a t ih =>
    intro ys i
    have harith : i + 1 + t.length = i + (t.length + 1) := by omega
    show (i, a) :: pyEnum (i + 1) (t ++ ys) =
      ((i, a) :: pyEnum (i + 1) t) ++ pyEnum (i + (t.length + 1)) ys
    rw [ih ys (i + 1), harith]
    rfl

theorem pyEnum_map_fst (l : List α) :
    ∀ i : Nat, (pyEnum i l).map Prod.fst = List.range' i l.length := by
  induction l with
  | nil => intro i; simp [pyEnum]
  | cons a t ih =>
    intro i
    simp [pyEnum, ih, List.range'_succ]

theorem zip_self_map (f : α → β) :
    ∀ l : List α, l.zip (l.map f) = l.map fun a => (a, f a) := by
  intro l
  induction l with
  | nil => simp
  | cons a t ih => simp [ih]

theorem pyEnum_map (f : α → β) :
    ∀ (l : List α) (i : Nat),
      pyEnum i (l.map f) = (pyEnum i l).map fun p => (p.1, f p.2) := by
  intro l
  induction l with
  | nil => intro i; simp [pyEnum]
  | cons a t ih =>
    intro i
    simp [pyEnum, ih]

/-- The batched loop of `upsert_chunks` enumerates the list: provided the
batch starts cover the whole list, the emitted (index, element) pairs are
exactly Python's `enumerate`. -/
theorem batches_enum (b : Nat) (hb : 0 < b) :
    ∀ (m : Nat) (l : List γ) (i : Nat), l.length ≤ i + m * b →
      (List.range' i m b).flatMap (fun j => pyEnum j ((l.drop j).take b)) =
        pyEnum i (l.drop i) := by
  intro m
  induction m with
  | zero =>
    intro l i hlen
    have h0 : l.drop i = [] := List.drop_eq_nil_of_le (by simpa using hlen)
    simp [h0, pyEnum]
  | succ m ih =>
    intro l i hlen
    rw [List.range'_succ]
    simp only [List.flatMap_cons]
    have hmul : i + (m + 1) * b = (i + b) + m * b := by ring
    rw [ih l (i + b) (by omega)]
    have hdd : (l.drop i).drop b = l.drop (i + b) := by
      rw [List.drop_drop, Nat.add_comm]
    have hsplit : l.drop i = (l.drop i).take b ++ l.drop (i + b) := by
      conv_lhs => rw [← List.take_append_drop b (l.drop i)]
      rw [hdd]
    conv_rhs => rw [hsplit]
    rw [pyEnum_append ((l.drop i).take b) (l.drop (i + b)) i]
    by_cases hD : l.drop (i + b) = []
    · rw [hD]
      simp [pyEnum]
    · have hgt : i + b < l.length := by
        by_contra hle
        exact hD (List.drop_eq_nil_of_le (by omega))
      have hT : ((l.drop i).take b).length = b := by
        simp only [List.length_take, List.length_drop]
        omega
      rw [hT]

/-- Ceiling bound `⌈n/b⌉·b ≥ n`: the starts 0, b, 2b, … of `range(0, n, b)` cover `n`. -/
theorem ceil_mul_ge (n b : Nat) (hb : 0 < b) : n ≤ ((n + b - 1) / b) * b := by
  rcases Nat.eq_zero_or_pos n with h | h
  · simp [h]
  · have h1 : (n + b - 1) / b = (n - 1) / b + 1 := by
      have h2 : n + b - 1 = (n - 1) + b := by omega
      rw [h2, Nat.add_div_right _ hb]
    rw [h1, Nat.add_mul, one_mul]
    have h2 := Nat.div_add_mod (n - 1) b
    have h3 : (n - 1) % b < b := Nat.mod_lt _ hb
    have h4 : (n - 1) / b * b = b * ((n - 1) / b) := Nat.mul_comm _ _
    rw [h4]
    generalize ht : b * ((n - 1) / b) = t at h2 ⊢
    omega

/-- C6: for every positive batch size and every chunk list, the rows emitted
by `upsert_chunks` are exactly Python's `enumerate` of the chunks paired with
their embeddings: the k-th emitted chunk is persisted with `chunk_index` k,
so indices are zero-based, contiguous and strictly increasing in emission
order regardless of the batch size. -/
theorem chunk_indices_contiguous {β : Type} (embed : List Char → β) (b : Nat)
    (hb : 0 < b) (chunks : List TranscriptChunk) :
    upsert_chunks embed b chunks =
      pyEnum 0 (chunks.map fun c => (c, embed c.content)) ∧
    (upsert_chunks embed b chunks).map (fun r => r.1) = List.range chunks.length := by
  have hmain : upsert_chunks embed b chunks =
      pyEnum 0 (chunks.map fun c => (c, embed c.content)) := by
    by_cases hnil : chunks = []
    · simp [upsert_chunks, hnil, pyEnum]
    · have hstep : upsert_chunks embed b chunks =
          (pyRange0 chunks.length b).flatMap (fun i =>
            pyEnum i (((chunks.map fun c => (c, embed c.content)).drop i).take b)) := by
        unfold upsert_chunks
        rw [if_neg hnil]
        congr 1
        funext i
        dsimp only
        have hz : ((chunks.drop i).take b).zip
            (get_embeddings_batch embed (((chunks.drop i).take b).map fun c => c.content)) =
            ((chunks.drop i).take b).map fun c => (c, embed c.content) := by
          unfold get_embeddings_batch
          rw [List.map_map, zip_self_map]
          rfl
        have hy : ((chunks.map fun c => (c, embed c.content)).drop i).take b =
            ((chunks.drop i).take b).map fun c => (c, embed c.content) := by
          rw [List.map_take, List.map_drop]
        rw [hz, hy]
        have hshift := pyEnum_shift i (((chunks.drop i).take b).map fun c => (c, embed c.content)) 0
        simp only [Nat.add_zero] at hshift
        exact hshift
      rw [hstep]
      unfold pyRange0
      rw [batches_enum b hb ((chunks.length + b - 1) / b)
        (chunks.map fun c => (c, embed c.content)) 0
        (by simp only [List.length_map, Nat.zero_add]; exact ceil_mul_ge chunks.length b hb)]
      rw [List.drop_zero]
  refine ⟨hmain, ?_⟩
  rw [hmain]
  have h1 := pyEnum_map_fst (chunks.map fun c => (c, embed c.content)) 0
  simp only [List.length_map] at h1
  rw [h1, List.range_eq_range']

/-- Witness for the C6 theorem at the code's batch size 10 and 12 chunks. -/
theorem chunk_indices_contiguous_witness :
    0 < 10 ∧
    (upsert_chunks (fun l => l.length) 10 witnessChunks =
        pyEnum 0 (witnessChunks.map fun c => (c, c.content.length)) ∧
      (upsert_chunks (fun l => l.length) 10 witnessChunks).map (fun r => r.1) =
        List.range witnessChunks.length) :=
  ⟨by decide, chunk_indices_contiguous (fun l => l.length) 10 (by decide) witnessChunks⟩

/-! ### Claim theorems: the turn segmenter -/

theorem dropWhile_dropWhile (p : α → Bool) :
    ∀ l : List α, (l.dropWhile p).dropWhile p = l.dropWhile p := by
  intro l
  induction l with
  | nil => rfl
  | cons a t ih =>
    by_cases hp : p a
    · simp [List.dropWhile_cons, hp, ih]
    · simp [List.dropWhile_cons, hp]

theorem head?_dropWhile_not (p : α → Bool) :
    ∀ (l : List α) (c : α), (l.dropWhile p).head? = some c → p c = false := by
  intro l
  induction l with
  | nil =>
    intro c h
    simp [List.dropWhile] at h
  | cons a t ih =>
    intro c h
    by_cases hp : p a
    · rw [List.dropWhile_cons, if_pos hp] at h
      exact ih c h
    · rw [List.dropWhile_cons, if_neg hp] at h
      simp only [List.head?_cons, Option.some.injEq] at h
      subst h
      exact Bool.eq_false_iff.mpr hp

theorem getLast?_dropWhile (p : α → Bool) :
    ∀ l : List α, l.dropWhile p ≠ [] → (l.dropWhile p).getLast? = l.getLast? := by
  intro l
  induction l with
  | nil => intro h; exact absurd rfl h
  | cons a t ih =>
    intro h
    by_cases hp : p a
    · rw [List.dropWhile_cons, if_pos hp] at h ⊢
      have htne : t ≠ [] := by
        intro h0
        rw [h0] at h
        exact h rfl
      rcases t with _ | ⟨b, t'⟩
      · exact absurd rfl htne
      · rw [ih h, List.getLast?_cons_cons]
    · rw [List.dropWhile_cons, if_neg hp]

theorem dropWhile_eq_self_of_head (p : α → Bool) (l : List α)
    (h : ∀ c, l.head? = some c → p c = false) : l.dropWhile p = l := by
  rcases l with _ | ⟨a, t⟩
  · rfl
  · have := h a rfl
    simp [List.dropWhile_cons, this]

theorem pyStrip_head (l : List Char) (c : Char) (h : (pyStrip l).head? = some c) :
    isWS c = false := by
  unfold pyStrip pyStripChars at h
  rw [List.head?_reverse] at h
  have hne : (l.dropWhile isWS).reverse.dropWhile isWS ≠ [] := by
    intro h0
    rw [h0] at h
    simp at h
  rw [getLast?_dropWhile isWS _ hne, List.getLast?_reverse] at h
  exact head?_dropWhile_not isWS l c h

theorem pyStrip_last (l : List Char) (c : Char) (h : (pyStrip l).getLast? = some c) :
    isWS c = false := by
  unfold pyStrip pyStripChars at h
  rw [List.getLast?_reverse] at h
  exact head?_dropWhile_not isWS _ c h

theorem pyStrip_idem (l : List Char) : pyStrip (pyStrip l) = pyStrip l := by
  have step1 : (pyStrip l).dropWhile isWS = pyStrip l :=
    dropWhile_eq_self_of_head isWS (pyStrip l) (fun c h => pyStrip_head l c h)
  show ((((pyStrip l).dropWhile isWS).reverse).dropWhile isWS).reverse = pyStrip l
  rw [step1]
  have hrev : (pyStrip l).reverse = (l.dropWhile isWS).reverse.dropWhile isWS := by
    show (((l.dropWhile isWS).reverse.dropWhile isWS).reverse).reverse = _
    rw [List.reverse_reverse]
  rw [hrev, dropWhile_dropWhile]
  rfl

/-- Equality `(if c then x else none) = some v` forces the branch. -/
theorem if_eq_some_of_eq {c : Prop} [Decidable c] {x : Option α} {v : α}
    (h : (if c then x else none) = some v) : x = some v := by
  by_cases hc : c
  · rwa [if_pos hc] at h
  · rw [if_neg hc] at h
    exact absurd h (by simp)

theorem noNameMatch_g1 (l : List Char) (g1 : Option (List Char)) (ts : List Char)
    (n : Nat) (h : noNameMatch l = some (g1, ts, n)) : g1 = none := by
  unfold noNameMatch at h
  rcases hm : matchParenTS l with _ | ⟨ts', k⟩ <;> rw [hm] at h
  · simp at h
  · simp only [Option.some.injEq, Prod.mk.injEq] at h
    exact h.1.symm

theorem matchCore_cons (c : Char) (rest : List Char) :
    matchCore (c :: rest) =
      (if c.isAlpha then
        match nameAttempt rest with
        | some (tail, ts, n) =>
          some (some (c :: tail), ts, (1 + n) + wsCount ((c :: rest).drop (1 + n)))
        | none => noNameMatch (c :: rest)
      else noNameMatch (c :: rest)) := rfl

theorem matchCore_g1 (l : List Char) (s ts : List Char) (n : Nat)
    (h : matchCore l = some (some s, ts, n)) : s ≠ [] := by
  rcases l with _ | ⟨c, rest⟩
  · have h0 : noNameMatch [] = some (some s, ts, n) := h
    have := noNameMatch_g1 [] (some s) ts n h0
    simp at this
  · rw [matchCore_cons] at h
    by_cases hα : c.isAlpha
    · rw [if_pos hα] at h
      rcases hna : nameAttempt rest with _ | ⟨tail, ts', n'⟩ <;> rw [hna] at h
      · have := noNameMatch_g1 (c :: rest) (some s) ts n h
        simp at this
      · simp only [Option.some.injEq, Prod.mk.injEq] at h
        rw [← h.1]
        exact List.cons_ne_nil _ _
    · rw [if_neg hα] at h
      have := noNameMatch_g1 (c :: rest) (some s) ts n h
      simp at this

theorem matchAt_g1 (t : List Char) (p : Nat) (m : RMatch) (hm : matchAt t p = some m)
    (s : List Char) (hs : m.g1 = some s) : s ≠ [] := by
  unfold matchAt at hm
  rcases h1 : (if (p == 0 || t.get? (p - 1) == some '\n') = true
      then matchCore (t.drop p) else none) with _ | ⟨g1, ts, n⟩ <;> rw [h1] at hm
  · rcases h2 : (if (t.get? p == some '\n') = true
        then matchCore (t.drop (p + 1)) else none) with _ | ⟨g1, ts, n⟩ <;> rw [h2] at hm
    · simp at hm
    · simp only [Option.some.injEq] at hm
      subst hm
      simp only at hs
      subst hs
      exact matchCore_g1 _ s ts n (if_eq_some_of_eq h2)
  · simp only [Option.some.injEq] at hm
    subst hm
    simp only at hs
    subst hs
    exact matchCore_g1 _ s ts n (if_eq_some_of_eq h1)

theorem findGo_g1 (t : List Char) :
    ∀ (fuel p : Nat) (m : RMatch), m ∈ findGo t fuel p →
      ∀ s, m.g1 = some s → s ≠ [] := by
  intro fuel
  induction fuel with
  | zero =>
    intro p m hm
    simp [findGo] at hm
  | succ f ih =>
    intro p m hm s hs
    simp only [findGo] at hm
    by_cases hp : p ≥ t.length
    · rw [if_pos hp] at hm
      simp at hm
    · rw [if_neg hp] at hm
      rcases hmat : matchAt t p with _ | m' <;> rw [hmat] at hm
      · exact ih _ _ hm s hs
      · rcases List.mem_cons.mp hm with h | h
        · subst h
          exact matchAt_g1 t p m hmat s hs
        · exact ih _ _ h s hs

theorem findAll_g1 (t : List Char) (m : RMatch) (hm : m ∈ findAll t)
    (s : List Char) (hs : m.g1 = some s) : s ≠ [] :=
  findGo_g1 t (t.length + 1) 0 m hm s hs

theorem turnsGo_length (t : List Char) :
    ∀ (ms : List RMatch) (cur : List Char), (turnsGo t cur ms).length = ms.length := by
  intro ms
  induction ms with
  | nil => intro cur; rfl
  | cons m rest ih => intro cur; simp [turnsGo, ih]

theorem turnsGo_get (t : List Char) :
    ∀ (ms : List RMatch) (cur : List Char), pyStrip cur = cur →
      (∀ m ∈ ms, ∀ s, m.g1 = some s → s ≠ []) →
      ∀ (i : Nat) (m : RMatch) (tu : PreTurn),
        ms.get? i = some m → (turnsGo t cur ms).get? i = some tu →
        (tu.speaker = match m.g1 with
          | some s => pyStrip s
          | none => (((ms.take i).filterMap RMatch.g1).map pyStrip).getLastD cur) ∧
        tu.tsStr = m.g2 ∧
        tu.content = pyStrip (pySlice t m.endPos
          (match ms.get? (i + 1) with
            | some m2 => m2.startPos
            | none => t.length)) := by
  intro ms
  induction ms with
  | nil =>
    intro cur _ _ i m tu hm _
    simp at hm
  | cons m0 rest ih =>
    intro cur hcur hg1 i m tu hm htu
    cases i with
    | zero =>
      simp only [List.get?_cons_zero, Option.some.injEq] at hm
      simp only [turnsGo, List.get?_cons_zero, Option.some.injEq] at htu
      subst hm
      subst htu
      refine ⟨?_, rfl, ?_⟩
      · rcases hg : m0.g1 with _ | s
        · simp only [pyOr, hg]
          simp [hcur]
        · have hsne : s ≠ [] := hg1 m0 (List.mem_cons_self m0 rest) s hg
          simp only [pyOr, hg]
          rw [if_neg hsne]
      · rcases rest with _ | ⟨m2, rest'⟩ <;> rfl
    | succ i =>
      simp only [List.get?_cons_succ] at hm htu
      have hspk : pyStrip (pyStrip (pyOr m0.g1 cur)) = pyStrip (pyOr m0.g1 cur) :=
        pyStrip_idem _
      have hrec := ih (pyStrip (pyOr m0.g1 cur)) hspk
        (fun m' hm' => hg1 m' (List.mem_cons_of_mem m0 hm')) i m tu hm htu
      refine ⟨?_, hrec.2.1, hrec.2.2⟩
      rw [hrec.1]
      rcases hg : m.g1 with _ | s
      · simp only [List.take_succ_cons, List.filterMap_cons]
        rcases hg0 : m0.g1 with _ | s0
        · simp only [pyOr, hg0]
          rw [hcur]
        · have hs0ne : s0 ≠ [] := hg1 m0 (List.mem_cons_self m0 rest) s0 hg0
          simp only [pyOr, hg0]
          rw [if_neg hs0ne, List.map_cons, List.getLastD_cons]
      · rfl

/-- C8: in the segmenter, the i-th turn's speaker is the stripped explicit
name of its marker when present and otherwise the most recently seen
explicit name (default `"Unknown"`); its timestamp is the marker's group 2;
and its content is the (stripped) text from its marker's end to the next
marker's start, or to the end of text for the last marker. -/
theorem segmenter_attribution_and_spans (t : List Char) (i : Nat) (m : RMatch)
    (tu : PreTurn) (hm : (findAll t).get? i = some m)
    (htu : (segmentTurns t).get? i = some tu) :
    (segmentTurns t).length = (findAll t).length ∧
    (tu.speaker = match m.g1 with
      | some s => pyStrip s
      | none => ((((findAll t).take i).filterMap RMatch.g1).map pyStrip).getLastD
          (("Unknown").toList)) ∧
    tu.tsStr = m.g2 ∧
    tu.content = pyStrip (pySlice t m.endPos
      (match (findAll t).get? (i + 1) with
        | some m2 => m2.startPos
        | none => t.length)) := by
  refine ⟨turnsGo_length t (findAll t) _, ?_⟩
  exact turnsGo_get t (findAll t) (("Unknown").toList) (by decide)
    (fun m' hm' => findAll_g1 t m' hm') i m tu hm htu

/-- Witness for the C8 theorem: the second, nameless marker of `c8Text`
inherits the speaker "Alice" and spans up to the end of text. -/
theorem segmenter_attribution_and_spans_witness :
    ((findAll c8Text).get? 1 = some c8Match ∧
      (segmentTurns c8Text).get? 1 = some c8Turn) ∧
    ((segmentTurns c8Text).length = (findAll c8Text).length ∧
      (c8Turn.speaker = match c8Match.g1 with
        | some s => pyStrip s
        | none => ((((findAll c8Text).take 1).filterMap RMatch.g1).map pyStrip).getLastD
            (("Unknown").toList)) ∧
      c8Turn.tsStr = c8Match.g2 ∧
      c8Turn.content = pyStrip (pySlice c8Text c8Match.endPos
        (match (findAll c8Text).get? (1 + 1) with
          | some m2 => m2.startPos
          | none => c8Text.length))) :=
  ⟨⟨by decide, by decide⟩,
    segmenter_attribution_and_spans c8Text 1 c8Match c8Turn (by decide) (by decide)⟩

/-- C10: every chunk emitted by the pipeline — passed through whole or
produced by sentence splitting — stores a `word_count` equal to the
whitespace-split word count of its own content. -/
theorem chunk_word_count_invariant (t : List Char) (c : TranscriptChunk)
    (hc : c ∈ parseChunks t) : c.word_count = count_words c.content := by
  simp only [parseChunks, List.mem_flatMap] at hc
  obtain ⟨tu, _, hc⟩ := hc
  simp only [packTurn] at hc
  by_cases hne : tu.content = []
  · rw [if_pos hne] at hc
    simp at hc
  · rw [if_neg hne] at hc
    by_cases hbig : count_words tu.content > CHUNK_MAX_WORDS
    · rw [if_pos hbig] at hc
      exact packGo_wc _ _ _ _ _ _ hc
    · rw [if_neg hbig] at hc
      simp only [List.mem_singleton] at hc
      subst hc
      rfl

/-- Witness for the C10 theorem at the example transcript. -/
theorem chunk_word_count_invariant_witness :
    ((⟨("Alice").toList, ("00:01:15").toList, some 75,
        ("Hello. This is a test.").toList, 5⟩ : TranscriptChunk) ∈
      parseChunks (("Alice (00:01:15): Hello. This is a test.").toList)) ∧
    (5 : Nat) = count_words (("Hello. This is a test.").toList) :=
  ⟨by decide,
    chunk_word_count_invariant (("Alice (00:01:15): Hello. This is a test.").toList)
      ⟨("Alice").toList, ("00:01:15").toList, some 75,
        ("Hello. This is a test.").toList, 5⟩ (by decide)⟩

/-! ### Claim theorems: guest name parsing -/

/-- C9: every name returned by guest parsing is non-empty and trimmed, and
the field `"Brian Chesky and Elena Verna"` resolves to exactly
`["Brian Chesky", "Elena Verna"]` in that order. -/
theorem guest_names_trimmed_nonempty :
    (∀ (g n : List Char), n ∈ parse_guest_names g →
      n ≠ [] ∧ pyStrip n = n ∧ trimmedB n = true) ∧
    parse_guest_names (("Brian Chesky and Elena Verna").toList) =
      [("Brian Chesky").toList, ("Elena Verna").toList] := by
  constructor
  · intro g n hn
    simp only [parse_guest_names, List.mem_filterMap] at hn
    obtain ⟨x, _, hx⟩ := hn
    by_cases hxe : pyStrip x = []
    · rw [if_pos hxe] at hx
      exact absurd hx (by simp)
    · rw [if_neg hxe] at hx
      simp only [Option.some.injEq] at hx
      subst hx
      refine ⟨hxe, pyStrip_idem x, ?_⟩
      unfold trimmedB
      rw [Bool.and_eq_true]
      constructor
      · rcases hh : (pyStrip x).head? with _ | c
        · rfl
        · simp [pyStrip_head x c hh]
      · rcases hh : (pyStrip x).getLast? with _ | c
        · rfl
        · simp [pyStrip_last x c hh]
  · decide

/-- Witness for the universally quantified part of the C9 theorem. -/
theorem guest_names_trimmed_nonempty_witness :
    (("Ann").toList ∈ parse_guest_names (("Ann and Ben").toList)) ∧
    (("Ann").toList ≠ [] ∧ pyStrip (("Ann").toList) = ("Ann").toList ∧
      trimmedB (("Ann").toList) = true) :=
  ⟨by decide,
    guest_names_trimmed_nonempty.1 (("Ann and Ben").toList) (("Ann").toList) (by decide)⟩

/-! ### Claim theorems: tool-call empty results -/

/-- C7 counterexample: `list_episodes` with a guest filter that matches no
guest records does not return the empty-result message — the filter is
silently dropped and the unfiltered episode list is formatted instead
(server.py:376-386: the emptiness check precedes the guest filtering). -/
theorem list_episodes_guest_filter_counterexample :
    c7Env.guestIdsByName (("Nobody").toList) = [] ∧
    c7Env.episodesQuery c7Args.search (("views").toList) 10 = [c7Row] ∧
    call_tool c7Env "list_episodes" c7Args = fmtEpisode c7Row ∧
    call_tool c7Env "list_episodes" c7Args ≠ ("No episodes found.").toList := by
  refine ⟨rfl, rfl, by decide, by decide⟩

/-- C7 amended: each tool returns its explicit empty-result message when its
primary result set (for `compare_experts`, after the expert filter; for
`list_episodes`, the base episode query before the guest filter) is empty;
the guest-filtered path of `list_episodes` is not covered by that check. -/
theorem empty_results_messages_amended (env : ToolEnv) (args : ToolArgs) :
    (env.search (args.query.getD []) (args.limit.getD 5) = [] →
      call_tool env "search_wisdom" args = ("No relevant results found.").toList) ∧
    (env.search (pyStrip (args.challenge.getD [] ++ [' '] ++ args.context.getD [])) 8 = [] →
      call_tool env "get_advice" args =
        ("No relevant expert insights found for this challenge.").toList) ∧
    ((if args.experts.getD [] ≠ [] then
        (env.search (args.topic.getD []) 15).filter (fun r =>
          (args.experts.getD []).any fun ex => containsSub (pyLower ex) (pyLower r.guest_name))
      else env.search (args.topic.getD []) 15) = [] →
      call_tool env "compare_experts" args = ("No relevant expert viewpoints found.").toList) ∧
    (env.search (("how to ").toList ++ args.goal.getD [] ++ (" best practices steps").toList) 10 = [] →
      call_tool env "generate_playbook" args =
        ("No relevant expert insights found for this goal.").toList) ∧
    (env.search (args.category.getD [] ++ (" metrics KPIs benchmarks ").toList ++
        args.context.getD []) 8 = [] →
      call_tool env "find_metrics" args = ("No relevant metrics or benchmarks found.").toList) ∧
    (env.episodesQuery args.search (args.sort.getD (("views").toList)) (args.limit.getD 10) = [] →
      call_tool env "list_episodes" args = ("No episodes found.").toList) := by
  refine ⟨?_, ?_, ?_, ?_, ?_, ?_⟩ <;> intro h <;> unfold call_tool
  · rw [if_pos rfl]
    dsimp only
    rw [if_pos h]
  · rw [if_neg (by decide), if_pos rfl]
    dsimp only
    rw [if_pos h]
  · rw [if_neg (by decide), if_neg (by decide), if_pos rfl]
    dsimp only
    rw [if_pos h]
  · rw [if_neg (by decide), if_neg (by decide), if_neg (by decide), if_pos rfl]
    dsimp only
    rw [if_pos h]
  · rw [if_neg (by decide), if_neg (by decide), if_neg (by decide), if_neg (by decide),
      if_pos rfl]
    dsimp only
    rw [if_pos h]
  · rw [if_neg (by decide), if_neg (by decide), if_neg (by decide), if_neg (by decide),
      if_neg (by decide), if_pos rfl]
    dsimp only
    rw [if_pos h]

/-- Witness for the C7 amended theorem: an empty store makes every tool
return its message; shown here for `list_episodes`. -/
theorem empty_results_messages_amended_witness :
    c7EmptyEnv.episodesQuery none (("views").toList) 10 = [] ∧
    call_tool c7EmptyEnv "list_episodes" {} = ("No episodes found.").toList :=
  ⟨rfl, (empty_results_messages_amended c7EmptyEnv {}).2.2.2.2.2 rfl⟩
